import Mathlib

/-!
Verification of the prompt-coach core pipeline
(`coach/heuristics.py`, `coach/utils.py`, `coach/scorer.py`,
`coach/openai_client.py`) as a shallow embedding in Lean 4.

Strings are modelled as Lean `String` (a wrapper around `List Char`);
Python `int` as `Nat`/`Int`; raised exceptions as `Except.error`;
the external OpenAI client as an environment record carrying the
outcomes of the (at most two) network attempts.
-/

namespace PromptCoach

/-! ## Python string primitives used by the repository -/

/-- Characters treated as whitespace by Python `str.strip()` / `str.split()`
(ASCII subset; the repository only ever handles ASCII prompt text). -/
def isPySpace (c : Char) : Bool :=
  c = ' ' || c = '\t' || c = '\n' || c = '\x0d' || c = '\x0b' || c = '\x0c'

/-- Python `str.strip()`: drop leading and trailing whitespace. -/
def pyStripL (s : List Char) : List Char :=
  ((s.dropWhile isPySpace).reverse.dropWhile isPySpace).reverse

/-- Number of maximal non-whitespace runs, i.e. `len(s.split())` for the
no-argument Python `str.split`. -/
def wordCountAux : List Char → Bool → Nat
  | [], _ => 0
  | c :: rest, inWord =>
    if isPySpace c then wordCountAux rest false
    else (if inWord then 0 else 1) + wordCountAux rest true

def wordCount (s : List Char) : Nat := wordCountAux s false

/-- Is `pat` a prefix of `s`? (Boolean, short-circuiting.) -/
def prefB : List Char → List Char → Bool
  | [], _ => true
  | _ :: _, [] => false
  | p :: ps, c :: cs => p = c && prefB ps cs

/-- Python `pat in s`: substring containment. -/
def subB (pat : List Char) : List Char → Bool
  | [] => prefB pat []
  | s@(_ :: rest) => prefB pat s || subB pat rest

/-- ASCII lowercasing, as applied by `re.I` / `str.lower()` on the
repository's ASCII pattern alphabet. -/
def lowerL (s : List Char) : List Char := s.map Char.toLower

/-- Python regex `\w` on ASCII text: `[A-Za-z0-9_]`. -/
def isWordChar (c : Char) : Bool := c.isAlphanum || c = '_'

/-- A `\b` boundary holds before the current position given the previous
character (`none` at the start of the text), for patterns whose adjacent
character is a word character. -/
def boundaryBefore : Option Char → Bool
  | none => true
  | some c => !isWordChar c

/-- A `\b` boundary holds after a match that ends right before `rest`. -/
def boundaryAfter : List Char → Bool
  | [] => true
  | c :: _ => !isWordChar c

/-- `re.search` of `\bPAT\b` where `PAT` is a literal beginning and ending
with word characters: scan for an occurrence flanked by non-word characters
(or the ends of the text). -/
def wbSearchAux (pat : List Char) : Option Char → List Char → Bool
  | _, [] => false
  | prev, s@(c :: rest) =>
    (boundaryBefore prev && prefB pat s && boundaryAfter (s.drop pat.length))
      || wbSearchAux pat (some c) rest

def wbSearch (pat : List Char) (s : List Char) : Bool := wbSearchAux pat none s

/-! ## `coach/heuristics.py` -/

/-- `HeuristicScores` dataclass. -/
structure HeuristicScores where
  clarity : Nat
  context : Nat
  constraints : Nat
  format_contract : Nat
  guardrails : Nat
  acceptance : Nat
deriving DecidableEq, Repr

/-- `KEY_SIGNS["role"]`, i.e. `\bAct as\b|\bRole\b` with `re.I`:
searched on the lowercased text. (Computed by the rubric but never
consulted by `score_prompt`; kept for the spec's "role marker".) -/
def roleHit (t : List Char) : Bool :=
  wbSearch "act as".toList (lowerL t) || wbSearch "role".toList (lowerL t)

/-- The four format nouns `(JSON|YAML|table|code only)` of
`KEY_SIGNS["format"]`, lowercased. -/
def formatNouns : List (List Char) :=
  ["json".toList, "yaml".toList, "table".toList, "code only".toList]

/-- After a `\bOutput\b` match, `.*(JSON|YAML|table|code only)`:
one of the nouns occurs later on the same line (`.` does not cross a
newline). -/
def litAfter : List Char → Bool
  | [] => false
  | s@(c :: rest) =>
    formatNouns.any (fun lit => prefB lit s) || (c ≠ '\n' && litAfter rest)

/-- The second alternative of `KEY_SIGNS["format"]`:
`\bOutput\b.*(JSON|YAML|table|code only)` on lowercased text. -/
def outputThenLitAux : Option Char → List Char → Bool
  | _, [] => false
  | prev, s@(c :: rest) =>
    (boundaryBefore prev && prefB "output".toList s
      && boundaryAfter (s.drop 6) && litAfter (s.drop 6))
      || outputThenLitAux (some c) rest

/-- `re.search(KEY_SIGNS["format"], t, re.I)`:
`\bRespond only with\b|\bOutput\b.*(JSON|YAML|table|code only)`. -/
def formatHit (t : List Char) : Bool :=
  wbSearch "respond only with".toList (lowerL t) || outputThenLitAux none (lowerL t)

/-- `re.search(KEY_SIGNS["guardrails"], t, re.I)`:
`\bDo not fabricate\b|\bverification\b|\bcommands to verify\b`. -/
def guardrailsHit (t : List Char) : Bool :=
  wbSearch "do not fabricate".toList (lowerL t)
    || wbSearch "verification".toList (lowerL t)
    || wbSearch "commands to verify".toList (lowerL t)

/-- `re.search(KEY_SIGNS["accept"], t, re.I)`:
`\bAcceptance\b|\bAcceptance Criteria\b|\btests\b|\bvalidation\b`. -/
def acceptHit (t : List Char) : Bool :=
  wbSearch "acceptance".toList (lowerL t)
    || wbSearch "acceptance criteria".toList (lowerL t)
    || wbSearch "tests".toList (lowerL t)
    || wbSearch "validation".toList (lowerL t)

/-- Clarity condition: `len(t.split()) >= 6 and ("Task:" in t or "Write" in t
or "Create" in t)`. -/
def clarityHit (t : List Char) : Bool :=
  decide (6 ≤ wordCount t)
    && (subB "Task:".toList t || subB "Write".toList t || subB "Create".toList t)

/-- Context condition: `any(k in t for k in
["RHEL","PostgreSQL","Python","Ansible","versions","constraints"])`. -/
def contextHit (t : List Char) : Bool :=
  ["RHEL", "PostgreSQL", "Python", "Ansible", "versions", "constraints"].any
    (fun k => subB k.toList t)

/-- Constraints condition: `any(k in t for k in
["idempotent","no shell","lint","type hints","RLS","security"])`. -/
def constraintsHit (t : List Char) : Bool :=
  ["idempotent", "no shell", "lint", "type hints", "RLS", "security"].any
    (fun k => subB k.toList t)

/-- `heuristics.score_prompt`. -/
def score_prompt (text : String) : HeuristicScores :=
  let t := pyStripL text.toList
  { clarity := if clarityHit t then 20 else 12
    context := if contextHit t then 20 else 8
    constraints := if constraintsHit t then 15 else 7
    format_contract := if formatHit t then 20 else 8
    guardrails := if guardrailsHit t then 15 else 6
    acceptance := if acceptHit t then 10 else 4 }

/-- `heuristics.total`. -/
def total (h : HeuristicScores) : Nat :=
  h.clarity + h.context + h.constraints + h.format_contract + h.guardrails + h.acceptance

/-! ## JSON values and `json.loads`

Python JSON values. Numbers with a fractional part or an exponent
(Python floats) are kept opaquely as their lexeme in `fnum`; every claim
about scorecard totals concerns integers only. -/

inductive JValue where
  | null : JValue
  | bool (b : Bool) : JValue
  | num (n : Int) : JValue
  | fnum (lexeme : String) : JValue
  | str (s : String) : JValue
  | arr (elems : List JValue) : JValue
  | obj (fields : List (String × JValue)) : JValue

/-- Is this JSON value an object (a Python `dict`)? -/
def JValue.isObj : JValue → Bool
  | .obj _ => true
  | _ => false

/-- JSON inter-token whitespace accepted by `json.loads`. -/
def isJsonWs (c : Char) : Bool := c = ' ' || c = '\t' || c = '\n' || c = '\x0d'

def skipWs (s : List Char) : List Char := s.dropWhile isJsonWs

def hexDigitVal (c : Char) : Option Nat :=
  if c.isDigit then some (c.toNat - 48)
  else if 'a' ≤ c ∧ c ≤ 'f' then some (c.toNat - 87)
  else if 'A' ≤ c ∧ c ≤ 'F' then some (c.toNat - 55)
  else none

def parseHex4 : List Char → Option (Nat × List Char)
  | a :: b :: c :: d :: rest => do
    let x ← hexDigitVal a
    let y ← hexDigitVal b
    let z ← hexDigitVal c
    let w ← hexDigitVal d
    some (4096 * x + 256 * y + 16 * z + w, rest)
  | _ => none

/-- Body of a JSON string after the opening quote (strict mode: raw
control characters below 0x20 are rejected; `\uXXXX` escapes and
surrogate pairs are decoded). -/
def parseStrBody : Nat → List Char → List Char → Option (List Char × List Char)
  | 0, _, _ => none
  | _ + 1, [], _ => none
  | _ + 1, '"' :: rest, acc => some (acc.reverse, rest)
  | f + 1, '\\' :: rest, acc =>
    match rest with
    | '"' :: r => parseStrBody f r ('"' :: acc)
    | '\\' :: r => parseStrBody f r ('\\' :: acc)
    | '/' :: r => parseStrBody f r ('/' :: acc)
    | 'b' :: r => parseStrBody f r ('\x08' :: acc)
    | 'f' :: r => parseStrBody f r ('\x0c' :: acc)
    | 'n' :: r => parseStrBody f r ('\n' :: acc)
    | 'r' :: r => parseStrBody f r ('\x0d' :: acc)
    | 't' :: r => parseStrBody f r ('\t' :: acc)
    | 'u' :: r =>
      match parseHex4 r with
      | none => none
      | some (n, r2) =>
        if 0xD800 ≤ n ∧ n < 0xDC00 then
          match r2 with
          | '\\' :: 'u' :: r3 =>
            match parseHex4 r3 with
            | some (m, r4) =>
              if 0xDC00 ≤ m ∧ m < 0xE000 then
                parseStrBody f r4
                  (Char.ofNat (0x10000 + (n - 0xD800) * 0x400 + (m - 0xDC00)) :: acc)
              else parseStrBody f r2 (Char.ofNat n :: acc)
            | none => parseStrBody f r2 (Char.ofNat n :: acc)
          | _ => parseStrBody f r2 (Char.ofNat n :: acc)
        else parseStrBody f r2 (Char.ofNat n :: acc)
    | _ => none
  | f + 1, c :: rest, acc =>
    if c.toNat < 32 then none else parseStrBody f rest (c :: acc)

def digitsOf (s : List Char) : List Char × List Char :=
  (s.takeWhile Char.isDigit, s.dropWhile Char.isDigit)

def natFromDigits (ds : List Char) : Nat :=
  ds.foldl (fun a c => a * 10 + (c.toNat - 48)) 0

/-- Optional `.digits` part of a JSON number (all-or-nothing, as in the
scanner's regex: `1.` leaves the dot unconsumed). -/
def fracPart : List Char → List Char × List Char
  | '.' :: rest =>
    match digitsOf rest with
    | ([], _) => ([], '.' :: rest)
    | (ds, r) => ('.' :: ds, r)
  | s => ([], s)

/-- Optional `[eE][+-]?digits` part of a JSON number (all-or-nothing). -/
def expPart : List Char → List Char × List Char
  | [] => ([], [])
  | e :: rest =>
    if e = 'e' ∨ e = 'E' then
      match rest with
      | sgn :: rest2 =>
        if sgn = '+' ∨ sgn = '-' then
          match digitsOf rest2 with
          | ([], _) => ([], e :: rest)
          | (ds, r) => (e :: sgn :: ds, r)
        else
          match digitsOf rest with
          | ([], _) => ([], e :: rest)
          | (ds, r) => (e :: ds, r)
      | [] => ([], [e])
    else ([], e :: rest)

def finishNum (neg : Bool) (intDs : List Char) (s : List Char) : JValue × List Char :=
  let (fp, s1) := fracPart s
  let (ep, s2) := expPart s1
  if fp = [] ∧ ep = [] then
    (.num (if neg then -(natFromDigits intDs : Int) else (natFromDigits intDs : Int)), s2)
  else
    (.fnum ⟨(if neg then ['-'] else []) ++ intDs ++ fp ++ ep⟩, s2)

/-- Integer part of a JSON number: `0` or a nonzero digit followed by
digits (leading zeros are a syntax error). -/
def parseNumAfterSign (neg : Bool) : List Char → Option (JValue × List Char)
  | '0' :: rest => some (finishNum neg ['0'] rest)
  | c :: rest =>
    if c.isDigit then
      let (ds, r) := digitsOf rest
      some (finishNum neg (c :: ds) r)
    else none
  | [] => none

mutual

/-- One JSON value at the head of the input (leading whitespace already
skipped by the caller). -/
def parseVal : Nat → List Char → Option (JValue × List Char)
  | 0, _ => none
  | f + 1, s =>
    match s with
    | '{' :: rest =>
      match skipWs rest with
      | '}' :: rest2 => some (.obj [], rest2)
      | r => (parseObjItems f r []).map fun p => (.obj p.1, p.2)
    | '[' :: rest =>
      match skipWs rest with
      | ']' :: rest2 => some (.arr [], rest2)
      | r => (parseArrItems f r []).map fun p => (.arr p.1, p.2)
    | '"' :: rest => (parseStrBody (f + 1) rest []).map fun p => (.str ⟨p.1⟩, p.2)
    | 't' :: 'r' :: 'u' :: 'e' :: rest => some (.bool true, rest)
    | 'f' :: 'a' :: 'l' :: 's' :: 'e' :: rest => some (.bool false, rest)
    | 'n' :: 'u' :: 'l' :: 'l' :: rest => some (.null, rest)
    | 'N' :: 'a' :: 'N' :: rest => some (.fnum "NaN", rest)
    | 'I' :: 'n' :: 'f' :: 'i' :: 'n' :: 'i' :: 't' :: 'y' :: rest =>
      some (.fnum "Infinity", rest)
    | '-' :: 'I' :: 'n' :: 'f' :: 'i' :: 'n' :: 'i' :: 't' :: 'y' :: rest =>
      some (.fnum "-Infinity", rest)
    | '-' :: rest => parseNumAfterSign true rest
    | c :: rest => if c.isDigit then parseNumAfterSign false (c :: rest) else none
    | [] => none

/-- Array items after `[` (first item expected; whitespace skipped). -/
def parseArrItems : Nat → List Char → List JValue → Option (List JValue × List Char)
  | 0, _, _ => none
  | f + 1, s, acc =>
    match parseVal f s with
    | none => none
    | some (v, rest) =>
      match skipWs rest with
      | ',' :: r2 => parseArrItems f (skipWs r2) (v :: acc)
      | ']' :: r2 => some ((v :: acc).reverse, r2)
      | _ => none

/-- Object items after `{` (first key expected; whitespace skipped). -/
def parseObjItems : Nat → List Char → List (String × JValue) →
    Option (List (String × JValue) × List Char)
  | 0, _, _ => none
  | f + 1, s, acc =>
    match s with
    | '"' :: rest =>
      match parseStrBody (f + 1) rest [] with
      | none => none
      | some (key, r1) =>
        match skipWs r1 with
        | ':' :: r2 =>
          match parseVal f (skipWs r2) with
          | none => none
          | some (v, r3) =>
            match skipWs r3 with
            | ',' :: r4 => parseObjItems f (skipWs r4) ((⟨key⟩, v) :: acc)
            | '}' :: r4 => some (((⟨key⟩, v) :: acc).reverse, r4)
            | _ => none
        | _ => none
    | _ => none

end

/-- `json.loads`: parse a complete JSON document, rejecting trailing
garbage. `none` models a raised `JSONDecodeError`. -/
def jparse (s : String) : Option JValue :=
  match parseVal (4 * s.toList.length + 8) (skipWs s.toList) with
  | some (v, rest) => if skipWs rest = [] then some v else none
  | none => none

/-- The default judgment substituted by `utils.safe_json_loads` when
parsing raises; note `improved` is the function's own input `s` (the raw
model output), not the user's prompt. -/
def defaultJudgment (s : String) : JValue :=
  .obj [("scorecard", .obj []), ("improved", .str s),
        ("verification", .arr []), ("notes", .arr [.str "non-json model output"])]

/-- `utils.safe_json_loads`. -/
def safe_json_loads (s : String) : JValue :=
  match jparse s with
  | some v => v
  | none => defaultJudgment s

/-! ## `difflib.unified_diff` as called by `utils.unified_diff`

`utils.unified_diff` splits both texts with `str.splitlines(keepends=True)`
and joins `difflib.unified_diff(a_lines, b_lines, fromfile="original",
tofile="improved")`. The `SequenceMatcher` is modelled in the no-junk
case: `unified_diff` passes no junk predicate, and autojunk only kicks in
for sequences of at least 200 lines, which this model does not cover.
`find_longest_match` is modelled by its documented specification: the
longest matching block, earliest in `a`, then earliest in `b`. -/

/-- Line-boundary characters of Python `str.splitlines`. -/
def isLineBreak (c : Char) : Bool :=
  c = '\n' || c = '\x0d' || c = '\x0b' || c = '\x0c' ||
  c = '\x1c' || c = '\x1d' || c = '\x1e' || c = '\x85' || c = '\u2028' || c = '\u2029'

/-- `str.splitlines(keepends=True)`, with `\r\n` kept as one boundary. -/
def splitLinesAux : List Char → List Char → List (List Char)
  | [], acc => if acc = [] then [] else [acc.reverse]
  | c :: rest, acc =>
    if isLineBreak c then
      if c = '\x0d' then
        match rest with
        | [] => [acc.reverse ++ [c]]
        | d :: rest2 =>
          if d = '\n' then (acc.reverse ++ [c, d]) :: splitLinesAux rest2 []
          else (acc.reverse ++ [c]) :: splitLinesAux (d :: rest2) []
      else (acc.reverse ++ [c]) :: splitLinesAux rest []
    else splitLinesAux rest (c :: acc)

def pySplitlines (s : List Char) : List (List Char) := splitLinesAux s []

section Difflib

variable {α : Type} [DecidableEq α]

/-- Length of the common prefix of two lists. -/
def commonPrefixLen : List α → List α → Nat
  | a :: as, b :: bs => if a = b then commonPrefixLen as bs + 1 else 0
  | _, _ => 0

/-- Length of the matching run of `a`/`b` starting at `(i, j)`, confined
to the region below `(ahi, bhi)`. -/
def runLen (a b : List α) (i j ahi bhi : Nat) : Nat :=
  commonPrefixLen ((a.drop i).take (ahi - i)) ((b.drop j).take (bhi - j))

/-- One step of the longest-match search: a strictly longer run replaces
the current best, so the earliest longest block wins. -/
def flmStep (a b : List α) (ahi bhi : Nat) (best : Nat × Nat × Nat) (ij : Nat × Nat) :
    Nat × Nat × Nat :=
  let k := runLen a b ij.1 ij.2 ahi bhi
  if best.2.2 < k then (ij.1, ij.2, k) else best

/-- All candidate starting pairs of the region, in lexicographic order. -/
def candPairs (alo ahi blo bhi : Nat) : List (Nat × Nat) :=
  (List.range' alo (ahi - alo)).flatMap fun i =>
    (List.range' blo (bhi - blo)).map fun j => (i, j)

/-- `SequenceMatcher.find_longest_match` on region
`(alo, ahi) × (blo, bhi)`, no junk. -/
def findLongestMatch (a b : List α) (alo ahi blo bhi : Nat) : Nat × Nat × Nat :=
  (candPairs alo ahi blo bhi).foldl (flmStep a b ahi bhi) (alo, blo, 0)

/-- Specification predicate: `blk` is a genuine matching block of
`a`/`b` lying inside the region `(alo, ahi) × (blo, bhi)`. -/
def goodBlock (a b : List α) (alo ahi blo bhi : Nat) (blk : Nat × Nat × Nat) : Prop :=
  alo ≤ blk.1 ∧ blk.1 + blk.2.2 ≤ ahi ∧ blo ≤ blk.2.1 ∧ blk.2.1 + blk.2.2 ≤ bhi ∧
  (a.drop blk.1).take blk.2.2 = (b.drop blk.2.1).take blk.2.2

/-- The recursive block collection of `get_matching_blocks` (the queue in
the source, here as structural recursion with fuel; blocks come out
sorted, which is what the source's final `sort()` establishes). -/
def mBlocks (a b : List α) : Nat → Nat → Nat → Nat → Nat → List (Nat × Nat × Nat)
  | 0, _, _, _, _ => []
  | f + 1, alo, ahi, blo, bhi =>
    let r := findLongestMatch a b alo ahi blo bhi
    if r.2.2 = 0 then []
    else
      mBlocks a b f alo r.1 blo r.2.1 ++ r :: mBlocks a b f (r.1 + r.2.2) ahi (r.2.1 + r.2.2) bhi

/-- The adjacent-block merging loop of `get_matching_blocks`. -/
def mergeAdj : Nat → Nat → Nat → List (Nat × Nat × Nat) → List (Nat × Nat × Nat)
  | i1, j1, k1, [] => if k1 = 0 then [] else [(i1, j1, k1)]
  | i1, j1, k1, (i2, j2, k2) :: rest =>
    if i1 + k1 = i2 ∧ j1 + k1 = j2 then mergeAdj i1 j1 (k1 + k2) rest
    else (if k1 = 0 then [] else [(i1, j1, k1)]) ++ mergeAdj i2 j2 k2 rest

/-- `SequenceMatcher.get_matching_blocks`, including the terminating
sentinel `(len(a), len(b), 0)`. -/
def matchingBlocks (a b : List α) : List (Nat × Nat × Nat) :=
  mergeAdj 0 0 0 (mBlocks a b (a.length + b.length + 1) 0 a.length 0 b.length)
    ++ [(a.length, b.length, 0)]

end Difflib

inductive Tag where
  | replace : Tag
  | delete : Tag
  | insert : Tag
  | equal : Tag
deriving DecidableEq, Repr

structure Opcode where
  tag : Tag
  i1 : Nat
  i2 : Nat
  j1 : Nat
  j2 : Nat
deriving DecidableEq, Repr

/-- The loop of `SequenceMatcher.get_opcodes` over matching blocks. -/
def opcodesAux : Nat → Nat → List (Nat × Nat × Nat) → List Opcode
  | _, _, [] => []
  | i, j, (ai, bj, sz) :: rest =>
    (if i < ai ∧ j < bj then [⟨.replace, i, ai, j, bj⟩]
     else if i < ai then [⟨.delete, i, ai, j, bj⟩]
     else if j < bj then [⟨.insert, i, ai, j, bj⟩]
     else [])
      ++ (if sz = 0 then [] else [⟨.equal, ai, ai + sz, bj, bj + sz⟩])
      ++ opcodesAux (ai + sz) (bj + sz) rest

def getOpcodes {α : Type} [DecidableEq α] (a b : List α) : List Opcode :=
  opcodesAux 0 0 (matchingBlocks a b)

/-- Head-trimming of a leading equal opcode in `get_grouped_opcodes`
(`max(i1, i2-n)`; natural subtraction matches Python's `max` with a
possibly negative difference). -/
def trimHeadOp (n : Nat) (c : Opcode) : Opcode :=
  { c with i1 := max c.i1 (c.i2 - n), j1 := max c.j1 (c.j2 - n) }

/-- Tail-trimming of a trailing equal opcode (`min(i2, i1+n)`). -/
def trimTailOp (n : Nat) (c : Opcode) : Opcode :=
  { c with i2 := min c.i2 (c.i1 + n), j2 := min c.j2 (c.j1 + n) }

def trimHead (n : Nat) : List Opcode → List Opcode
  | [] => []
  | c :: rest => (if c.tag = .equal then trimHeadOp n c else c) :: rest

def trimLast (n : Nat) : List Opcode → List Opcode
  | [] => []
  | [c] => [if c.tag = .equal then trimTailOp n c else c]
  | c :: rest => c :: trimLast n rest

/-- The grouping loop of `get_grouped_opcodes`: split at equal opcodes
longer than `2n`, and drop a final group that is a single equal opcode. -/
def groupLoop (n : Nat) : List Opcode → List Opcode → List (List Opcode)
  | [], g =>
    match g with
    | [] => []
    | [c] => if c.tag = .equal then [] else [[c]]
    | _ => [g]
  | c :: rest, g =>
    if c.tag = .equal ∧ 2 * n < c.i2 - c.i1 then
      (g ++ [trimTailOp n c]) :: groupLoop n rest [trimHeadOp n c]
    else groupLoop n rest (g ++ [c])

/-- `SequenceMatcher.get_grouped_opcodes` with the default context of
`n = 3` used by `unified_diff`. -/
def getGroupedOpcodes {α : Type} [DecidableEq α] (a b : List α) : List (List Opcode) :=
  let codes := getOpcodes a b
  let codes := if codes = [] then [⟨.equal, 0, 0, 0, 0⟩] else codes
  groupLoop 3 (trimLast 3 (trimHead 3 codes)) []

/-- `difflib._format_range_unified`. -/
def formatRangeUnified (start stop : Nat) : List Char :=
  let beginning := start + 1
  let length := stop - start
  if length = 1 then (Nat.repr beginning).toList
  else (Nat.repr (if length = 0 then start else beginning)).toList ++ ',' :: (Nat.repr length).toList

def sliceL (xs : List (List Char)) (i1 i2 : Nat) : List (List Char) :=
  (xs.drop i1).take (i2 - i1)

/-- The per-opcode output lines of `unified_diff`. -/
def opLines (xs ys : List (List Char)) (c : Opcode) : List (List Char) :=
  match c.tag with
  | .equal => (sliceL xs c.i1 c.i2).map (' ' :: ·)
  | .replace => (sliceL xs c.i1 c.i2).map ('-' :: ·) ++ (sliceL ys c.j1 c.j2).map ('+' :: ·)
  | .delete => (sliceL xs c.i1 c.i2).map ('-' :: ·)
  | .insert => (sliceL ys c.j1 c.j2).map ('+' :: ·)

/-- The `@@ -r1 +r2 @@` hunk header of a group. -/
def hunkHeader (g : List Opcode) : List Char :=
  let first := g.headD ⟨.equal, 0, 0, 0, 0⟩
  let last := g.getLastD ⟨.equal, 0, 0, 0, 0⟩
  '@' :: '@' :: ' ' :: '-' :: formatRangeUnified first.i1 last.i2
    ++ ' ' :: '+' :: formatRangeUnified first.j1 last.j2 ++ [' ', '@', '@', '\n']

/-- All output lines of `difflib.unified_diff(xs, ys, fromfile="original",
tofile="improved")`: the two file headers are emitted once, before the
first group. -/
def unifiedDiffLines (xs ys : List (List Char)) : List (List Char) :=
  match getGroupedOpcodes xs ys with
  | [] => []
  | groups =>
    "--- original\n".toList :: "+++ improved\n".toList ::
      groups.flatMap fun g => hunkHeader g :: g.flatMap (opLines xs ys)

/-- `utils.unified_diff`: join of all generated lines. -/
def unified_diff (a b : String) : String :=
  ⟨(unifiedDiffLines (pySplitlines a.toList) (pySplitlines b.toList)).flatten⟩

/-! ## `coach/openai_client.py` and `coach/scorer.py`

The OpenAI client is a capability boundary: the environment record
carries the configured credential and the outcomes of the first request
(with `temperature`) and of the optional retry (without it). A request
outcome is either an exception message or the `choices[0].message.content`
body (`none` models a `None` content). Usage-token passthrough is not
modelled; no claim concerns it. -/

/-- Outcome of one `client.chat.completions.create` call. -/
abbrev CallOutcome := Except String (Option String)

structure JudgeEnv where
  key : Option String
  firstCall : CallOutcome
  secondCall : CallOutcome

/-- Observable events of one evaluation: the local heuristic scoring and
each outbound network request (with or without the `temperature`
parameter). -/
inductive Ev where
  | heur : Ev
  | callTemp : Ev
  | callNoTemp : Ev
deriving DecidableEq, Repr

/-- `openai_client.get_client`: `if not key: raise RuntimeError(...)`.
The absent credential and the empty-string credential are both falsy. -/
def get_client (key : Option String) : Except String Unit :=
  match key with
  | none => .error "OPENAI_API_KEY not set"
  | some k => if k = "" then .error "OPENAI_API_KEY not set" else .ok ()

/-- The retry predicate of `judge_and_rewrite`:
`"temperature" in str(e) and "unsupported" in str(e).lower()`. -/
def tempRetryPred (e : String) : Bool :=
  subB "temperature".toList e.toList && subB "unsupported".toList (lowerL e.toList)

/-- `content = r.choices[0].message.content or "{}"`. -/
def contentOr : Option String → String
  | none => "{}"
  | some s => if s = "" then "{}" else s

/-- `openai_client.judge_and_rewrite`, with the trace of network calls it
makes. The first attempt carries `temperature=0.2`; on an
unsupported-parameter failure the single retry omits it; any other
failure re-raises. -/
def judge_and_rewrite (env : JudgeEnv) : List Ev × Except String JValue :=
  match get_client env.key with
  | .error e => ([], .error e)
  | .ok _ =>
    match env.firstCall with
    | .ok body => ([.callTemp], .ok (safe_json_loads (contentOr body)))
    | .error e =>
      if tempRetryPred e then
        match env.secondCall with
        | .ok body => ([.callTemp, .callNoTemp], .ok (safe_json_loads (contentOr body)))
        | .error e2 => ([.callTemp, .callNoTemp], .error e2)
      else ([.callTemp], .error e)

/-- Python `dict` lookup on an association list built by the JSON decoder
(later duplicate keys overwrite earlier ones). -/
def dictFind (kvs : List (String × JValue)) (k : String) : Option JValue :=
  (kvs.reverse.find? fun kv => kv.1 == k).map fun kv => kv.2

/-- Python `x.get(k, d)`: defined on `dict`s only; on any other JSON value
an `AttributeError` is raised. -/
def jGetD (v : JValue) (k : String) (d : JValue) : Except String JValue :=
  match v with
  | .obj kvs => .ok ((dictFind kvs k).getD d)
  | _ => .error "AttributeError: get"

/-- Is a float lexeme numerically zero (all mantissa digits `0`)? -/
def fnumIsZero (lex : String) : Bool :=
  (lex.toList.takeWhile fun c => c ≠ 'e' ∧ c ≠ 'E').all fun c => !c.isDigit || c = '0'

/-- `(model_score or 0)` followed by the integer addition
`local_score + ...`: falsy values (`0`, `False`, `None`, `""`, `[]`,
`{}`, `0.0`) contribute `0`; a truthy `int`/`bool` contributes its value;
a truthy non-number raises `TypeError` at the addition. A truthy float
total is left unmodelled (Python would switch to float arithmetic; every
claim restricts scorecard totals to integers). -/
def orZeroInt : JValue → Except String Int
  | .num n => .ok n
  | .bool b => .ok (if b then 1 else 0)
  | .null => .ok 0
  | .str s => if s = "" then .ok 0 else .error "TypeError: unsupported operand"
  | .arr [] => .ok 0
  | .arr (_ :: _) => .error "TypeError: unsupported operand"
  | .obj [] => .ok 0
  | .obj (_ :: _) => .error "TypeError: unsupported operand"
  | .fnum lex => if fnumIsZero lex then .ok 0 else .error "float total not modelled"

/-- `round(s / 2)` for an integer `s`, with Python 3 banker's rounding:
exact halves round to the nearest even integer. For odd `s`, `(s-1)/2`
is the floor of `s/2` (the division is exact). -/
def pyRound2 (s : Int) : Int :=
  if s % 2 = 0 then s / 2
  else
    let k := (s - 1) / 2
    if k % 2 = 0 then k else k + 1

/-- The dictionary returned by `scorer.score_and_improve`. -/
structure EvalResult where
  local_score : Nat
  model_score : JValue
  final_score : Int
  scorecard : JValue
  improved : JValue
  diff : String
  verification : JValue
  notes : JValue

/-- The merge section of `scorer.score_and_improve` after the judge
returned `model_data`: field extraction, final-score computation and
diffing; any raised `AttributeError`/`TypeError` is an `Except.error`. -/
def mergeResult (raw : String) (local_score : Nat) (data : JValue) :
    Except String EvalResult := do
  let scorecard0 ← jGetD data "scorecard" (.obj [])
  let model_score ← jGetD scorecard0 "total" (.num 0)
  let improved ← jGetD data "improved" (.str raw)
  let verification ← jGetD data "verification" (.arr [])
  let notes ← jGetD data "notes" (.arr [])
  let scorecard ← jGetD data "scorecard" (.obj [])
  let mt ← orZeroInt model_score
  let final := pyRound2 ((local_score : Int) + mt)
  let diff ← match improved with
    | .str s => Except.ok (unified_diff raw s)
    | _ => Except.error "AttributeError: splitlines"
  return { local_score := local_score, model_score := model_score,
           final_score := final, scorecard := scorecard, improved := improved,
           diff := diff, verification := verification, notes := notes }

/-- `scorer.score_and_improve`: local heuristic scoring first, then the
judge call, then the merge; exceptions from the judge or the merge
propagate. -/
def score_and_improve (raw : String) (env : JudgeEnv) :
    List Ev × Except String EvalResult :=
  let h := score_prompt raw
  let local_score := total h
  let jr := judge_and_rewrite env
  (Ev.heur :: jr.1,
    match jr.2 with
    | .error e => .error e
    | .ok data => mergeResult raw local_score data)

/-! ## Theorems -/

set_option maxRecDepth 100000

/-- C9: scoring the empty string is total (it is a Lean function) and
yields the low-value default on every sub-score — clarity 12, context 8,
constraints 7, format_contract 8, guardrails 6, acceptance 4 — for a
total of 45, since no marker is present in the empty text. -/
theorem empty_prompt_default_scores :
    score_prompt "" = ⟨12, 8, 7, 8, 6, 4⟩ ∧ total (score_prompt "") = 45 := by
  exact ⟨rfl, rfl⟩

/-- C3: for every input text each heuristic sub-score is within its
documented cap (clarity ≤ 20, context ≤ 20, constraints ≤ 15,
format_contract ≤ 20, guardrails ≤ 15, acceptance ≤ 10), each sub-score
is non-negative (the model uses naturals, and every branch of
`score_prompt` assigns a positive literal), and the heuristic total is
exactly the sum of the six sub-scores, hence at most 100. -/
theorem heuristic_subscores_capped_and_sum (text : String) :
    (score_prompt text).clarity ≤ 20 ∧ (score_prompt text).context ≤ 20 ∧
    (score_prompt text).constraints ≤ 15 ∧ (score_prompt text).format_contract ≤ 20 ∧
    (score_prompt text).guardrails ≤ 15 ∧ (score_prompt text).acceptance ≤ 10 ∧
    total (score_prompt text) =
      (score_prompt text).clarity + (score_prompt text).context +
      (score_prompt text).constraints + (score_prompt text).format_contract +
      (score_prompt text).guardrails + (score_prompt text).acceptance ∧
    total (score_prompt text) ≤ 100 := by
  unfold total score_prompt
  dsimp only
  refine ⟨?_, ?_, ?_, ?_, ?_, ?_, rfl, ?_⟩ <;> split_ifs <;> omega

/-- C6: with the credential environment variable absent, an evaluation
performs the local heuristic scoring, then raises the configuration
error from `get_client` with no network call ever issued: the event
trace is exactly `[heur]` and the result is the `RuntimeError`. -/
theorem missing_credential_errors_before_call (raw : String) (fc sc : CallOutcome) :
    score_and_improve raw ⟨none, fc, sc⟩ = ([Ev.heur], .error "OPENAI_API_KEY not set") := by
  rfl

/-- C5: if the first judge request fails with an unsupported-parameter
condition on the sampling temperature (the predicate of the source:
`"temperature" in str(e) and "unsupported" in str(e).lower()`), the
request is retried exactly once, without the temperature parameter, and
the retry's outcome is returned; a failure of any other kind propagates
as a terminal error for the evaluation with no retry; and no run of the
client ever makes more than one retry (at most two calls, at most one of
them without temperature). -/
theorem temperature_retry_policy :
    (∀ (k e : String) (sc : CallOutcome), k ≠ "" → tempRetryPred e = true →
      (judge_and_rewrite ⟨some k, .error e, sc⟩).1 = [Ev.callTemp, Ev.callNoTemp] ∧
      (judge_and_rewrite ⟨some k, .error e, sc⟩).2 =
        (match sc with
         | .ok body => .ok (safe_json_loads (contentOr body))
         | .error e2 => .error e2)) ∧
    (∀ (k e : String) (sc : CallOutcome), k ≠ "" → tempRetryPred e = false →
      judge_and_rewrite ⟨some k, .error e, sc⟩ = ([Ev.callTemp], .error e)) ∧
    (∀ (raw k e : String) (sc : CallOutcome), k ≠ "" → tempRetryPred e = false →
      (score_and_improve raw ⟨some k, .error e, sc⟩).2 = .error e) ∧
    (∀ env : JudgeEnv, (judge_and_rewrite env).1.count Ev.callNoTemp ≤ 1 ∧
      (judge_and_rewrite env).1.length ≤ 2) := by
  refine ⟨?_, ?_, ?_, ?_⟩
  · intro k e sc hk hp
    simp only [judge_and_rewrite, get_client, if_neg hk, hp, if_true]
    cases sc <;> exact ⟨rfl, rfl⟩
  · intro k e sc hk hp
    simp only [judge_and_rewrite, get_client, if_neg hk, hp]
    rfl
  · intro raw k e sc hk hp
    simp only [score_and_improve, judge_and_rewrite, get_client, if_neg hk, hp]
    rfl
  · intro env
    obtain ⟨key, fc, sc⟩ := env
    simp only [judge_and_rewrite]
    cases key with
    | none => simp [get_client]
    | some k =>
      by_cases hk : k = ""
      · simp [get_client, hk]
      · simp only [get_client, if_neg hk]
        cases fc with
        | ok body => simp
        | error e =>
          by_cases hp : tempRetryPred e = true
          · simp only [hp, if_true]
            cases sc <;> simp [List.count_cons]
          · simp only [eq_false_of_ne_true hp, if_false]
            simp [List.count_cons]

/-- C5 witness: a concrete unsupported-temperature failure is retried
once (without temperature) and the retry's body is used; a concrete
unrelated failure propagates with a single call. -/
theorem temperature_retry_policy_witness :
    ((judge_and_rewrite ⟨some "k", .error "Unsupported parameter: temperature",
        .ok (some "{}")⟩).1 = [Ev.callTemp, Ev.callNoTemp] ∧
      (judge_and_rewrite ⟨some "k", .error "Unsupported parameter: temperature",
        .ok (some "{}")⟩).2 = .ok (safe_json_loads (contentOr (some "{}")))) ∧
    judge_and_rewrite ⟨some "k", .error "connection reset", .ok (some "{}")⟩ =
      ([Ev.callTemp], .error "connection reset") :=
  ⟨temperature_retry_policy.1 "k" "Unsupported parameter: temperature" (.ok (some "{}"))
      (by decide) (by decide),
    temperature_retry_policy.2.1 "k" "connection reset" (.ok (some "{}"))
      (by decide) (by decide)⟩

/-- The claim's reading of "model_total": the judgment's
`scorecard.total`, taken at face value when it is a number (a Python
`bool` being the integer 0 or 1), and 0 when absent or falsy. -/
def modelTotalInt : JValue → Int
  | .num n => n
  | .bool b => if b then 1 else 0
  | _ => 0

theorem orZeroInt_ok {v : JValue} {i : Int} (h : orZeroInt v = .ok i) :
    modelTotalInt v = i := by
  cases v with
  | num n => injection h
  | bool b => injection h
  | null => injection h
  | str s =>
    simp only [orZeroInt] at h
    split at h
    · injection h
    · simp at h
  | fnum lex =>
    simp only [orZeroInt] at h
    split at h
    · injection h
    · simp at h
  | arr l =>
    cases l with
    | nil => injection h
    | cons a t => simp [orZeroInt] at h
  | obj l =>
    cases l with
    | nil => injection h
    | cons a t => simp [orZeroInt] at h

/-- Anatomy of a successful merge: the local score is passed through and
the final score is the rounded mean of the local score and the
scorecard total (0 when absent or falsy). -/
theorem mergeResult_ok_spec (raw : String) (l : Nat) (data : JValue) (res : EvalResult)
    (h : mergeResult raw l data = .ok res) :
    res.local_score = l ∧
    res.final_score = pyRound2 ((l : Int) + modelTotalInt res.model_score) := by
  unfold mergeResult at h
  simp only [bind, Except.bind, pure, Except.pure] at h
  split at h
  · simp at h
  next scorecard0 heq1 =>
  split at h
  · simp at h
  next model_score heq2 =>
  split at h
  · simp at h
  next improved heq3 =>
  split at h
  · simp at h
  next verification heq4 =>
  split at h
  · simp at h
  next notes heq5 =>
  split at h
  · simp at h
  next scorecard heq6 =>
  split at h
  · simp at h
  next mt heq7 =>
  split at h
  next s heq8 =>
    injection h with h
    subst h
    exact ⟨rfl, by simp [orZeroInt_ok heq7]⟩
  next heq8 => simp at h

/-- C1: for every evaluation that completes, the returned `final_score`
equals `round((local_total + model_total) / 2)` (Python `round`, i.e.
banker's rounding on exact halves), where `model_total` is the
judgment's `scorecard.total` defaulting to 0 when absent or falsy; and
the edge pairs (0,0) and (100,100) round to 0 and 100. -/
theorem final_score_is_rounded_mean :
    (∀ (raw : String) (env : JudgeEnv) (res : EvalResult),
      (score_and_improve raw env).2 = .ok res →
      res.final_score = pyRound2 ((res.local_score : Int) + modelTotalInt res.model_score)) ∧
    pyRound2 (0 + 0) = 0 ∧ pyRound2 (100 + 100) = 100 := by
  refine ⟨?_, by decide, by decide⟩
  intro raw env res h
  simp only [score_and_improve] at h
  split at h
  · simp at h
  next data heq =>
    obtain ⟨h1, h2⟩ := mergeResult_ok_spec _ _ _ _ h
    rw [h1, h2]

/-- C1 witness: with a valid key, a judge body carrying scorecard total
80 and the prompt "hello" (local total 45), the evaluation completes and
the final score is `round(125 / 2) = 62`. -/
theorem final_score_is_rounded_mean_witness :
    (62 : Int) = pyRound2 (((45 : Nat) : Int) + modelTotalInt (.num 80)) :=
  final_score_is_rounded_mean.1 "hello"
    ⟨some "k", .ok (some "\x7b\"scorecard\": \x7b\"total\": 80\x7d\x7d"), .error "unused"⟩
    { local_score := 45, model_score := .num 80, final_score := 62,
      scorecard := .obj [("total", .num 80)], improved := .str "hello", diff := "",
      verification := .arr [], notes := .arr [] }
    (by rfl)

/-- C8: any prompt whose (stripped) text carries the role marker, a
context/version marker, an idempotency/security keyword, the
output-format directive, anti-fabrication guardrail language and
acceptance-criteria language — the six `KEY_SIGNS`/keyword conditions of
`heuristics.py` — scores above 60 in total with `format_contract ≥ 15`
and `guardrails ≥ 10`. (The role marker is listed by the claim but never
consulted by `score_prompt`; the bound holds regardless of clarity.) In
particular the six-line RHEL/Postgres/Ansible fixture of
`tests/test_heuristics.py` scores total 100 > 60. -/
theorem marker_rich_prompt_scores_high :
    (∀ text : String,
      roleHit (pyStripL text.toList) = true →
      contextHit (pyStripL text.toList) = true →
      constraintsHit (pyStripL text.toList) = true →
      formatHit (pyStripL text.toList) = true →
      guardrailsHit (pyStripL text.toList) = true →
      acceptHit (pyStripL text.toList) = true →
      60 < total (score_prompt text) ∧
        15 ≤ (score_prompt text).format_contract ∧ 10 ≤ (score_prompt text).guardrails) ∧
    (60 < total (score_prompt ("Act as a senior Ansible reviewer.\n    Context: RHEL9, Postgres 16.\n    Task: Write idempotent playbook.\n    Respond only with YAML.\n    Do not fabricate; if unsure, suggest commands to verify.\n    Acceptance: passes ansible-lint.")) ∧
      15 ≤ (score_prompt ("Act as a senior Ansible reviewer.\n    Context: RHEL9, Postgres 16.\n    Task: Write idempotent playbook.\n    Respond only with YAML.\n    Do not fabricate; if unsure, suggest commands to verify.\n    Acceptance: passes ansible-lint.")).format_contract ∧
      10 ≤ (score_prompt ("Act as a senior Ansible reviewer.\n    Context: RHEL9, Postgres 16.\n    Task: Write idempotent playbook.\n    Respond only with YAML.\n    Do not fabricate; if unsure, suggest commands to verify.\n    Acceptance: passes ansible-lint.")).guardrails) := by
  constructor
  · intro text h1 h2 h3 h4 h5 h6
    unfold total score_prompt
    dsimp only
    rw [h2, h3, h4, h5, h6]
    refine ⟨?_, by simp, by simp⟩
    split <;> simp
  · refine ⟨?_, ?_, ?_⟩ <;> decide

/-- C8 witness: the fixture prompt satisfies all six marker conditions,
so the universal part applies to it and yields the stated bounds. -/
theorem marker_rich_prompt_scores_high_witness :
    60 < total (score_prompt ("Act as a senior Ansible reviewer.\n    Context: RHEL9, Postgres 16.\n    Task: Write idempotent playbook.\n    Respond only with YAML.\n    Do not fabricate; if unsure, suggest commands to verify.\n    Acceptance: passes ansible-lint.")) ∧
      15 ≤ (score_prompt ("Act as a senior Ansible reviewer.\n    Context: RHEL9, Postgres 16.\n    Task: Write idempotent playbook.\n    Respond only with YAML.\n    Do not fabricate; if unsure, suggest commands to verify.\n    Acceptance: passes ansible-lint.")).format_contract ∧
      10 ≤ (score_prompt ("Act as a senior Ansible reviewer.\n    Context: RHEL9, Postgres 16.\n    Task: Write idempotent playbook.\n    Respond only with YAML.\n    Do not fabricate; if unsure, suggest commands to verify.\n    Acceptance: passes ansible-lint.")).guardrails :=
  marker_rich_prompt_scores_high.1
    ("Act as a senior Ansible reviewer.\n    Context: RHEL9, Postgres 16.\n    Task: Write idempotent playbook.\n    Respond only with YAML.\n    Do not fabricate; if unsure, suggest commands to verify.\n    Acceptance: passes ansible-lint.")
    (by decide) (by decide) (by decide) (by decide) (by decide) (by decide)

/-- C2 counterexample: with the prompt "hello" and the non-JSON judge
body "not json", the evaluation completes, but its `improved` field is
the raw body "not json" — not the original input prompt text "hello" as
the claim states (`safe_json_loads` substitutes its own input, the model
output, for `improved`). -/
theorem nonjson_keeps_body_counterexample :
    jparse "not json" = none ∧
    (score_and_improve "hello" ⟨some "k", .ok (some "not json"), .error "unused"⟩).2 =
      .ok { local_score := 45, model_score := .num 0, final_score := 22,
            scorecard := .obj [], improved := .str "not json",
            diff := "--- original\n+++ improved\n@@ -1 +1 @@\n-hello+not json",
            verification := .arr [], notes := .arr [.str "non-json model output"] } ∧
    JValue.str "not json" ≠ JValue.str "hello" := by
  refine ⟨rfl, by rfl, ?_⟩
  intro h
  injection h with h
  exact absurd h (by decide)

/-- C2 amended: if the judge's response body is non-empty and not valid
JSON, the evaluation completes without raising, and its result has
`improved` equal to the raw response body (not the prompt), an empty
`verification` list, an empty scorecard, and `notes` containing exactly
the one diagnostic entry flagging non-JSON output. -/
theorem nonjson_recovery_amended (raw s k : String) (sc : CallOutcome)
    (hk : k ≠ "") (hjp : jparse s = none) (hs : s ≠ "") :
    (score_and_improve raw ⟨some k, .ok (some s), sc⟩).2 =
      .ok { local_score := total (score_prompt raw), model_score := .num 0,
            final_score := pyRound2 ((total (score_prompt raw) : Int) + 0),
            scorecard := .obj [], improved := .str s, diff := unified_diff raw s,
            verification := .arr [], notes := .arr [.str "non-json model output"] } := by
  simp only [score_and_improve, judge_and_rewrite, get_client, if_neg hk]
  simp only [contentOr, if_neg hs, safe_json_loads, hjp]
  rfl

/-- C2 amended witness: the concrete non-JSON body "not json". -/
theorem nonjson_recovery_amended_witness :
    (score_and_improve "hello" ⟨some "k", .ok (some "not json"), .error "unused"⟩).2 =
      .ok { local_score := total (score_prompt "hello"), model_score := .num 0,
            final_score := pyRound2 ((total (score_prompt "hello") : Int) + 0),
            scorecard := .obj [], improved := .str "not json",
            diff := unified_diff "hello" "not json",
            verification := .arr [], notes := .arr [.str "non-json model output"] } :=
  nonjson_recovery_amended "hello" "not json" "k" (.error "unused")
    (by decide) (by rfl) (by decide)

/-- C4 counterexample: a judgment that supplies an empty rewritten
prompt. The evaluation completes and the result's `improved` is the
empty string — `dict.get("improved", raw_prompt)` only falls back when
the key is absent, not when its value is empty — refuting "`improved` is
never the empty string". -/
theorem improved_can_be_empty_counterexample :
    (score_and_improve "hello"
        ⟨some "k", .ok (some "\x7b\"improved\": \"\"\x7d"), .error "unused"⟩).2 =
      .ok { local_score := 45, model_score := .num 0, final_score := 22,
            scorecard := .obj [], improved := .str "",
            diff := "--- original\n+++ improved\n@@ -1 +0,0 @@\n-hello",
            verification := .arr [], notes := .arr [] } := by
  rfl

theorem mergeResult_improved_default (raw : String) (l : Nat)
    (kvs : List (String × JValue)) (res : EvalResult)
    (hnone : dictFind kvs "improved" = none)
    (h : mergeResult raw l (.obj kvs) = .ok res) : res.improved = .str raw := by
  unfold mergeResult at h
  simp only [bind, Except.bind, pure, Except.pure] at h
  split at h
  · simp at h
  next scorecard0 heq1 =>
  split at h
  · simp at h
  next model_score heq2 =>
  split at h
  · simp at h
  next improved heq3 =>
  split at h
  · simp at h
  next verification heq4 =>
  split at h
  · simp at h
  next notes heq5 =>
  split at h
  · simp at h
  next scorecard heq6 =>
  split at h
  · simp at h
  next mt heq7 =>
  split at h
  next s heq8 =>
    injection h with h
    subst h
    simp only [jGetD, hnone, Option.getD_none, Except.ok.injEq] at heq3
    exact heq3.symm
  next heq8 => simp at h

/-- C4 amended: the fallback direction of the claim holds — whenever the
judgment provides no rewritten prompt (no `improved` key), the result's
`improved` is exactly the original prompt text — but `improved` can
still be the empty string, namely when the judgment supplies an empty
rewrite (see the counterexample) or the original prompt is empty. -/
theorem improved_fallback_only_when_absent :
    (∀ (raw : String) (l : Nat) (kvs : List (String × JValue)) (res : EvalResult),
      dictFind kvs "improved" = none → mergeResult raw l (.obj kvs) = .ok res →
      res.improved = .str raw) ∧
    (∀ (raw k s : String) (sc : CallOutcome) (kvs : List (String × JValue)) (res : EvalResult),
      k ≠ "" → s ≠ "" → jparse s = some (.obj kvs) → dictFind kvs "improved" = none →
      (score_and_improve raw ⟨some k, .ok (some s), sc⟩).2 = .ok res →
      res.improved = .str raw) := by
  refine ⟨mergeResult_improved_default, ?_⟩
  intro raw k s sc kvs res hk hs hjp hnone h
  simp only [score_and_improve, judge_and_rewrite, get_client, if_neg hk] at h
  simp only [contentOr, if_neg hs, safe_json_loads, hjp] at h
  exact mergeResult_improved_default _ _ _ _ hnone h

/-- C4 amended witness: judge body `{}` (an object with no `improved`
key) at the prompt "hello" falls back to the original prompt. -/
theorem improved_fallback_only_when_absent_witness :
    ({ local_score := 45, model_score := .num 0, final_score := 22,
       scorecard := .obj [], improved := .str "hello", diff := "",
       verification := .arr [], notes := .arr [] } : EvalResult).improved =
      .str "hello" :=
  improved_fallback_only_when_absent.2 "hello" "k" "{}" (.error "unused") []
    { local_score := 45, model_score := .num 0, final_score := 22,
      scorecard := .obj [], improved := .str "hello", diff := "",
      verification := .arr [], notes := .arr [] }
    (by decide) (by decide) (by rfl) (by rfl) (by rfl)

/-- C10: the default-judgment substitution happens exactly when JSON
parsing raises — `safe_json_loads` returns the parsed value as-is
whenever parsing succeeds — and if the parsed value is well-formed JSON
but not an object (array, number, string, boolean or null), the merge's
first `.get` access raises an `AttributeError` that propagates, so the
evaluation fails rather than recovering. -/
theorem nonobject_judgment_raises :
    (∀ s : String, (jparse s = none → safe_json_loads s = defaultJudgment s) ∧
      ∀ v : JValue, jparse s = some v → safe_json_loads s = v) ∧
    (∀ (raw k s : String) (sc : CallOutcome) (v : JValue),
      k ≠ "" → jparse s = some v → v.isObj = false →
      (score_and_improve raw ⟨some k, .ok (some s), sc⟩).2 =
        .error "AttributeError: get") := by
  constructor
  · intro s
    constructor
    · intro h; simp [safe_json_loads, h]
    · intro v h; simp [safe_json_loads, h]
  · intro raw k s sc v hk hjp hobj
    have hs : s ≠ "" := by
      intro he
      subst he
      have h0 : jparse "" = none := rfl
      rw [h0] at hjp
      cases hjp
    simp only [score_and_improve, judge_and_rewrite, get_client, if_neg hk]
    simp only [contentOr, if_neg hs, safe_json_loads, hjp]
    cases v with
    | obj kvs => simp [JValue.isObj] at hobj
    | null => rfl
    | bool b => rfl
    | num n => rfl
    | fnum lex => rfl
    | str s2 => rfl
    | arr l => rfl

/-- C10 witness: the well-formed non-object body `[1, 2]` makes the
evaluation fail with the `AttributeError`. -/
theorem nonobject_judgment_raises_witness :
    (score_and_improve "hi" ⟨some "k", .ok (some "[1, 2]"), .error "unused"⟩).2 =
      .error "AttributeError: get" :=
  nonobject_judgment_raises.2 "hi" "k" "[1, 2]" (.error "unused")
    (.arr [.num 1, .num 2]) (by decide) (by rfl) (by rfl)

/-! ### Lemmas about the difflib model -/

set_option linter.unusedSectionVars false

section DifflibLemmas

variable {α : Type} [DecidableEq α]

theorem commonPrefixLen_self (l : List α) : commonPrefixLen l l = l.length := by
  induction l with
  | nil => rfl
  | cons a t ih => simp [commonPrefixLen, ih]

theorem commonPrefixLen_le_left (xs ys : List α) : commonPrefixLen xs ys ≤ xs.length := by
  induction xs generalizing ys with
  | nil => cases ys <;> simp [commonPrefixLen]
  | cons a t ih =>
    cases ys with
    | nil => simp [commonPrefixLen]
    | cons b u =>
      simp only [commonPrefixLen]
      split
      · simpa using ih u
      · simp

theorem commonPrefixLen_le_right (xs ys : List α) : commonPrefixLen xs ys ≤ ys.length := by
  induction xs generalizing ys with
  | nil => cases ys <;> simp [commonPrefixLen]
  | cons a t ih =>
    cases ys with
    | nil => simp [commonPrefixLen]
    | cons b u =>
      simp only [commonPrefixLen]
      split
      · simpa using ih u
      · simp

theorem commonPrefixLen_take (xs ys : List α) :
    xs.take (commonPrefixLen xs ys) = ys.take (commonPrefixLen xs ys) := by
  induction xs generalizing ys with
  | nil => cases ys <;> simp [commonPrefixLen]
  | cons a t ih =>
    cases ys with
    | nil => simp [commonPrefixLen]
    | cons b u =>
      simp only [commonPrefixLen]
      split
      next hab => subst hab; simp [ih u]
      · simp

theorem runLen_le_a (a b : List α) (i j ahi bhi : Nat) :
    runLen a b i j ahi bhi ≤ ahi - i := by
  refine le_trans (commonPrefixLen_le_left _ _) ?_
  simp only [List.length_take]
  omega

theorem runLen_le_b (a b : List α) (i j ahi bhi : Nat) :
    runLen a b i j ahi bhi ≤ bhi - j := by
  refine le_trans (commonPrefixLen_le_right _ _) ?_
  simp only [List.length_take]
  omega

/-- The selected run is a genuine match of the two segments. -/
theorem runLen_take (a b : List α) (i j ahi bhi : Nat) :
    (a.drop i).take (runLen a b i j ahi bhi) = (b.drop j).take (runLen a b i j ahi bhi) := by
  have h := commonPrefixLen_take ((a.drop i).take (ahi - i)) ((b.drop j).take (bhi - j))
  rw [List.take_take, List.take_take] at h
  have h1 := runLen_le_a a b i j ahi bhi
  have h2 := runLen_le_b a b i j ahi bhi
  unfold runLen at h1 h2 ⊢
  rwa [min_eq_left h1, min_eq_left h2] at h

/-- Folding over further candidates keeps a best that no candidate beats. -/
theorem foldl_flmStep_keep (a b : List α) (ahi bhi : Nat) (l : List (Nat × Nat))
    (best : Nat × Nat × Nat)
    (h : ∀ ij ∈ l, runLen a b ij.1 ij.2 ahi bhi ≤ best.2.2) :
    l.foldl (flmStep a b ahi bhi) best = best := by
  induction l with
  | nil => rfl
  | cons x t ih =>
    rw [List.foldl_cons]
    have hx := h x (List.mem_cons_self x t)
    have hstep : flmStep a b ahi bhi best x = best := by
      simp only [flmStep]
      rw [if_neg (not_lt.mpr hx)]
    rw [hstep]
    exact ih fun ij hij => h ij (List.mem_cons_of_mem x hij)

/-- On identical sequences the longest match is the full sequence. -/
theorem findLongestMatch_self (a : List α) (hn : 0 < a.length) :
    findLongestMatch a a 0 a.length 0 a.length = (0, 0, a.length) := by
  obtain ⟨m, hm⟩ : ∃ m, a.length = m + 1 := ⟨a.length - 1, by omega⟩
  unfold findLongestMatch candPairs
  rw [Nat.sub_zero, hm, List.range'_succ, List.flatMap_cons, List.map_cons]
  rw [List.cons_append, List.foldl_cons]
  have hfirst : flmStep a a (m + 1) (m + 1) (0, 0, 0) (0, 0) = (0, 0, m + 1) := by
    simp only [flmStep, runLen, Nat.sub_zero, List.drop_zero]
    rw [← hm, List.take_length, commonPrefixLen_self, hm]
    simp
  rw [hfirst]
  exact foldl_flmStep_keep a a (m + 1) (m + 1) _ (0, 0, m + 1)
    (fun ij _ => le_trans (runLen_le_a a a ij.1 ij.2 (m + 1) (m + 1)) (Nat.sub_le _ _))

/-- An empty `a`-region yields the trivial match. -/
theorem findLongestMatch_empty (a b : List α) (alo blo bhi : Nat) :
    findLongestMatch a b alo alo blo bhi = (alo, blo, 0) := by
  unfold findLongestMatch candPairs
  simp

/-- Region collapse: no blocks come out of an empty `a`-region. -/
theorem mBlocks_empty (a b : List α) (f alo blo bhi : Nat) :
    mBlocks a b f alo alo blo bhi = [] := by
  cases f with
  | zero => rfl
  | succ f =>
    simp only [mBlocks, findLongestMatch_empty]
    rfl

/-- On identical sequences the matching blocks are the full block plus
the sentinel. -/
theorem matchingBlocks_self (a : List α) (hn : 0 < a.length) :
    matchingBlocks a a = [(0, 0, a.length), (a.length, a.length, 0)] := by
  unfold matchingBlocks
  obtain ⟨m, hm⟩ : ∃ m, a.length + a.length + 1 = m + 1 := ⟨a.length + a.length, rfl⟩
  rw [hm]
  simp only [mBlocks, findLongestMatch_self a hn]
  rw [if_neg (by omega : ¬ a.length = 0)]
  simp only [mBlocks_empty, List.nil_append]
  simp [mergeAdj, hn.ne', mBlocks_empty]

theorem getOpcodes_self (a : List α) (hn : 0 < a.length) :
    getOpcodes a a = [⟨Tag.equal, 0, a.length, 0, a.length⟩] := by
  unfold getOpcodes
  rw [matchingBlocks_self a hn]
  simp [opcodesAux, hn.ne']

/-- A grouping run over one small equal opcode yields no group. -/
theorem groupLoop_single_small (n : Nat) (c : Opcode) (htag : c.tag = Tag.equal)
    (hsmall : ¬ 2 * n < c.i2 - c.i1) : groupLoop n [c] [] = [] := by
  simp only [groupLoop]
  rw [if_neg (by exact fun h => hsmall h.2)]
  simp [groupLoop, htag]

/-- The diff of two identical line sequences has no groups at all. -/
theorem getGroupedOpcodes_self (a : List α) : getGroupedOpcodes a a = [] := by
  rcases Nat.eq_zero_or_pos a.length with hz | hp
  · rw [List.length_eq_zero] at hz
    subst hz
    rfl
  · unfold getGroupedOpcodes
    rw [getOpcodes_self a hp]
    dsimp only
    rw [if_neg (List.cons_ne_nil _ _)]
    have h1 : trimHead 3 [(⟨Tag.equal, 0, a.length, 0, a.length⟩ : Opcode)] =
        [trimHeadOp 3 ⟨Tag.equal, 0, a.length, 0, a.length⟩] := by
      simp [trimHead]
    have h2 : trimLast 3 [trimHeadOp 3 (⟨Tag.equal, 0, a.length, 0, a.length⟩ : Opcode)] =
        [trimTailOp 3 (trimHeadOp 3 ⟨Tag.equal, 0, a.length, 0, a.length⟩)] := by
      simp [trimLast, trimHeadOp]
    rw [h1, h2]
    exact groupLoop_single_small 3 _ rfl (by simp only [trimTailOp, trimHeadOp]; omega)

/-- `splitlines(keepends=True)` loses no characters: the concatenation
of the parts is the original text. -/
theorem splitLinesAux_flatten (l acc : List Char) :
    (splitLinesAux l acc).flatten = acc.reverse ++ l := by
  induction l, acc using splitLinesAux.induct with
  | case1 => rw [splitLinesAux.eq_def]; simp
  | case2 acc hacc => rw [splitLinesAux.eq_def]; simp [hacc]
  | case3 acc hbr => rw [splitLinesAux.eq_def]; simp [hbr]
  | case4 acc tail hbr ih => rw [splitLinesAux.eq_def]; simp [hbr, ih]
  | case5 acc c tail hcn hbr ih => rw [splitLinesAux.eq_def]; simp [hcn, hbr, ih]
  | case6 c rest acc hbr hcr ih => rw [splitLinesAux.eq_def]; simp [hbr, hcr, ih]
  | case7 c rest acc hbr ih => rw [splitLinesAux.eq_def]; simp [hbr, ih]

theorem pySplitlines_inj {s t : List Char} (h : pySplitlines s = pySplitlines t) :
    s = t := by
  have hs := splitLinesAux_flatten s []
  have ht := splitLinesAux_flatten t []
  unfold pySplitlines at h
  rw [h, ht] at hs
  simpa using hs.symm

theorem mem_candPairs {alo ahi blo bhi : Nat} {ij : Nat × Nat}
    (h : ij ∈ candPairs alo ahi blo bhi) :
    alo ≤ ij.1 ∧ ij.1 < ahi ∧ blo ≤ ij.2 ∧ ij.2 < bhi := by
  simp only [candPairs, List.mem_flatMap, List.mem_map] at h
  obtain ⟨i, hi, j, hj, rfl⟩ := h
  rw [List.mem_range'_1] at hi hj
  exact ⟨hi.1, by omega, hj.1, by omega⟩

theorem flmStep_spec (a b : List α) (alo ahi blo bhi : Nat) (best : Nat × Nat × Nat)
    (ij : Nat × Nat) (hij : alo ≤ ij.1 ∧ ij.1 < ahi ∧ blo ≤ ij.2 ∧ ij.2 < bhi)
    (hbest : best.2.2 ≠ 0 → goodBlock a b alo ahi blo bhi best) :
    (flmStep a b ahi bhi best ij).2.2 ≠ 0 →
      goodBlock a b alo ahi blo bhi (flmStep a b ahi bhi best ij) := by
  simp only [flmStep]
  split
  · intro _
    have h1 := runLen_le_a a b ij.1 ij.2 ahi bhi
    have h2 := runLen_le_b a b ij.1 ij.2 ahi bhi
    unfold goodBlock
    dsimp only
    obtain ⟨k1, k2, k3, k4⟩ := hij
    exact ⟨k1, by omega, k3, by omega, runLen_take a b ij.1 ij.2 ahi bhi⟩
  · exact hbest

theorem foldl_flmStep_spec (a b : List α) (alo ahi blo bhi : Nat) (l : List (Nat × Nat))
    (hl : ∀ ij ∈ l, alo ≤ ij.1 ∧ ij.1 < ahi ∧ blo ≤ ij.2 ∧ ij.2 < bhi)
    (best : Nat × Nat × Nat) (hbest : best.2.2 ≠ 0 → goodBlock a b alo ahi blo bhi best) :
    (l.foldl (flmStep a b ahi bhi) best).2.2 ≠ 0 →
      goodBlock a b alo ahi blo bhi (l.foldl (flmStep a b ahi bhi) best) := by
  induction l generalizing best with
  | nil => exact hbest
  | cons x t ih =>
    rw [List.foldl_cons]
    exact ih (fun ij hij => hl ij (List.mem_cons_of_mem x hij))
      (flmStep a b ahi bhi best x)
      (flmStep_spec a b alo ahi blo bhi best x (hl x (List.mem_cons_self x t)) hbest)

/-- A nonzero longest match is a genuine in-region matching block. -/
theorem findLongestMatch_spec (a b : List α) (alo ahi blo bhi : Nat)
    (h0 : (findLongestMatch a b alo ahi blo bhi).2.2 ≠ 0) :
    goodBlock a b alo ahi blo bhi (findLongestMatch a b alo ahi blo bhi) := by
  unfold findLongestMatch at h0 ⊢
  exact foldl_flmStep_spec a b alo ahi blo bhi _ (fun ij hij => mem_candPairs hij)
    (alo, blo, 0) (fun h => absurd rfl h) h0

/-- Every block produced on a region is a genuine nonempty matching
block of that region. -/
theorem mBlocks_spec (a b : List α) :
    ∀ (f alo ahi blo bhi : Nat) (blk : Nat × Nat × Nat),
      blk ∈ mBlocks a b f alo ahi blo bhi →
      goodBlock a b alo ahi blo bhi blk ∧ blk.2.2 ≠ 0 := by
  intro f
  induction f with
  | zero => intro alo ahi blo bhi blk hmem; simp [mBlocks] at hmem
  | succ f ih =>
    intro alo ahi blo bhi blk hmem
    simp only [mBlocks] at hmem
    split at hmem
    · simp at hmem
    next h0 =>
      have hr := findLongestMatch_spec a b alo ahi blo bhi h0
      obtain ⟨hr1, hr2, hr3, hr4, hr5⟩ := hr
      rcases List.mem_append.mp hmem with hL | hR
      · obtain ⟨⟨g1, g2, g3, g4, g5⟩, g6⟩ := ih alo _ blo _ blk hL
        exact ⟨⟨g1, by omega, g3, by omega, g5⟩, g6⟩
      · rcases List.mem_cons.mp hR with heq | hR2
        · subst heq; exact ⟨⟨hr1, hr2, hr3, hr4, hr5⟩, h0⟩
        · obtain ⟨⟨g1, g2, g3, g4, g5⟩, g6⟩ := ih _ ahi _ bhi blk hR2
          exact ⟨⟨by omega, g2, by omega, g4, g5⟩, g6⟩

/-- Concatenating two adjacent genuine matches gives a genuine match. -/
theorem genuine_append {a b : List α} {i j k1 k2 : Nat}
    (h1 : (a.drop i).take k1 = (b.drop j).take k1)
    (h2 : (a.drop (i + k1)).take k2 = (b.drop (j + k1)).take k2) :
    (a.drop i).take (k1 + k2) = (b.drop j).take (k1 + k2) := by
  rw [List.take_add, List.take_add, h1, List.drop_drop, List.drop_drop, h2]

/-- The merge loop emits only genuine nonempty in-region blocks. -/
theorem mergeAdj_spec (a b : List α) (alo ahi blo bhi : Nat) :
    ∀ (l : List (Nat × Nat × Nat)), (∀ blk ∈ l, goodBlock a b alo ahi blo bhi blk) →
    ∀ (i1 j1 k1 : Nat), (k1 ≠ 0 → goodBlock a b alo ahi blo bhi (i1, j1, k1)) →
    ∀ blk ∈ mergeAdj i1 j1 k1 l,
      goodBlock a b alo ahi blo bhi blk ∧ blk.2.2 ≠ 0 := by
  intro l
  induction l with
  | nil =>
    intro _ i1 j1 k1 hacc blk hmem
    simp only [mergeAdj] at hmem
    split at hmem
    · simp at hmem
    next hk1 =>
      rw [List.mem_singleton] at hmem
      subst hmem
      exact ⟨hacc hk1, hk1⟩
  | cons hd t ih =>
    intro hl i1 j1 k1 hacc blk hmem
    obtain ⟨i2, j2, k2⟩ := hd
    have hhd := hl (i2, j2, k2) (List.mem_cons_self _ _)
    have ht : ∀ blk ∈ t, goodBlock a b alo ahi blo bhi blk :=
      fun x hx => hl x (List.mem_cons_of_mem _ hx)
    simp only [mergeAdj] at hmem
    split at hmem
    next hadj =>
      refine ih ht i1 j1 (k1 + k2) ?_ blk hmem
      intro _
      obtain ⟨b1, b2, b3, b4, b5⟩ := hhd
      by_cases hk1 : k1 = 0
      · subst hk1
        simp only [Nat.add_zero] at hadj
        obtain ⟨rfl, rfl⟩ := hadj
        simpa [goodBlock] using ⟨b1, b2, b3, b4, b5⟩
      · obtain ⟨a1, a2, a3, a4, a5⟩ := hacc hk1
        obtain ⟨hi2, hj2⟩ := hadj
        subst hi2
        subst hj2
        unfold goodBlock
        dsimp only at a1 a2 a3 a4 a5 b1 b2 b3 b4 b5 ⊢
        refine ⟨a1, by omega, a3, by omega, ?_⟩
        exact genuine_append a5 b5
    next =>
      rcases List.mem_append.mp hmem with hL | hR
      · split at hL
        · simp at hL
        next hk1 =>
          rw [List.mem_singleton] at hL
          subst hL
          exact ⟨hacc hk1, hk1⟩
      · exact ih ht i2 j2 k2 (fun _ => hhd) blk hR

/-- Every non-sentinel matching block is genuine, nonempty and within
bounds; the list ends with the sentinel. -/
theorem matchingBlocks_spec (a b : List α) :
    ∀ blk ∈ matchingBlocks a b,
      (goodBlock a b 0 a.length 0 b.length blk ∧ blk.2.2 ≠ 0) ∨
        blk = (a.length, b.length, 0) := by
  intro blk hmem
  unfold matchingBlocks at hmem
  rcases List.mem_append.mp hmem with hL | hR
  · left
    exact mergeAdj_spec a b 0 a.length 0 b.length _
      (fun x hx => (mBlocks_spec a b _ _ _ _ _ x hx).1) 0 0 0
      (fun h => absurd rfl h) blk hL
  · right
    simpa using hR

/-- If the opcode loop emits nothing, every remaining block is an empty
block lying at or before the current position. -/
theorem opcodesAux_nil :
    ∀ (bs : List (Nat × Nat × Nat)) (i j : Nat), opcodesAux i j bs = [] →
      ∀ blk ∈ bs, blk.2.2 = 0 ∧ blk.1 ≤ i ∧ blk.2.1 ≤ j := by
  intro bs
  induction bs with
  | nil => simp
  | cons hd t ih =>
    intro i j h blk hmem
    obtain ⟨ai, bj, sz⟩ := hd
    simp only [opcodesAux] at h
    rw [List.append_eq_nil, List.append_eq_nil] at h
    obtain ⟨⟨htag, heqp⟩, hrec⟩ := h
    have hij : ai ≤ i ∧ bj ≤ j := by
      split at htag
      · simp at htag
      · split at htag
        · simp at htag
        · split at htag
          · simp at htag
          next h1 h2 h3 => omega
    have hsz : sz = 0 := by
      split at heqp
      next h0 => exact h0
      · simp at heqp
    rcases List.mem_cons.mp hmem with heq | hmem2
    · subst heq; exact ⟨hsz, hij.1, hij.2⟩
    · have := ih (ai + sz) (bj + sz) hrec blk hmem2
      exact ⟨this.1, by omega, by omega⟩

/-- If the grouping loop yields no group, the pending group plus the
remaining opcodes are empty or a single equal opcode. -/
theorem groupLoop_nil (n : Nat) :
    ∀ (cs g : List Opcode), groupLoop n cs g = [] →
      g ++ cs = [] ∨ ∃ c, g ++ cs = [c] ∧ c.tag = Tag.equal := by
  intro cs
  induction cs with
  | nil =>
    intro g h
    simp only [groupLoop] at h
    match g, h with
    | [], _ => exact Or.inl rfl
    | [c], h =>
      refine Or.inr ⟨c, by simp, ?_⟩
      by_contra hne
      dsimp only at h
      rw [if_neg hne] at h
      exact absurd h (by simp)
    | c1 :: c2 :: t, h =>
      dsimp only at h
      exact absurd h (by simp)
  | cons c rest ih =>
    intro g h
    simp only [groupLoop] at h
    split at h
    · exact absurd h (by simp)
    · have := ih (g ++ [c]) h
      simpa [List.append_assoc] using this

theorem trimHead_map_tag (n : Nat) (cs : List Opcode) :
    (trimHead n cs).map Opcode.tag = cs.map Opcode.tag := by
  cases cs with
  | nil => rfl
  | cons c rest =>
    simp only [trimHead, List.map_cons]
    split
    · rfl
    · rfl

theorem trimLast_map_tag (n : Nat) (cs : List Opcode) :
    (trimLast n cs).map Opcode.tag = cs.map Opcode.tag := by
  induction cs with
  | nil => rfl
  | cons c rest ih =>
    cases rest with
    | nil =>
      simp only [trimLast, List.map_cons]
      split <;> rfl
    | cons d t =>
      simp only [trimLast, List.map_cons] at ih ⊢
      rw [ih]

/-- Rigidity of the tag list: a list whose tags are `[equal]` is one
equal opcode. -/
theorem map_tag_single {cs : List Opcode} (h : cs.map Opcode.tag = [Tag.equal]) :
    ∃ c, cs = [c] ∧ c.tag = Tag.equal := by
  cases cs with
  | nil => simp at h
  | cons c rest =>
    cases rest with
    | nil => exact ⟨c, rfl, by simpa using h⟩
    | cons d t => simp at h

/-- If no opcodes at all are emitted, both line sequences are empty. -/
theorem getOpcodes_nil_eq {xs ys : List (List Char)} (h : getOpcodes xs ys = []) :
    xs = ys := by
  unfold getOpcodes at h
  have hsent := opcodesAux_nil _ 0 0 h (xs.length, ys.length, 0)
    (by unfold matchingBlocks; exact List.mem_append_right _ (List.mem_singleton.mpr rfl))
  dsimp only at hsent
  have hxs0 : xs = [] := List.length_eq_zero.mp (by omega)
  have hys0 : ys = [] := List.length_eq_zero.mp (by omega)
  rw [hxs0, hys0]

/-- If the only opcode is a single equal opcode, the two line sequences
coincide: the sole matching block is genuine and covers both sequences
entirely. -/
theorem getOpcodes_single_equal_eq {xs ys : List (List Char)} {c₁ : Opcode}
    (h : getOpcodes xs ys = [c₁]) (htag : c₁.tag = Tag.equal) : xs = ys := by
  have hmerged : ∀ blk ∈ mergeAdj 0 0 0
      (mBlocks xs ys (xs.length + ys.length + 1) 0 xs.length 0 ys.length),
      goodBlock xs ys 0 xs.length 0 ys.length blk ∧ blk.2.2 ≠ 0 :=
    fun blk hb => mergeAdj_spec xs ys 0 xs.length 0 ys.length _
      (fun x hx => (mBlocks_spec xs ys _ _ _ _ _ x hx).1) 0 0 0
      (fun hk => absurd rfl hk) blk hb
  unfold getOpcodes matchingBlocks at h
  cases hml : mergeAdj 0 0 0
      (mBlocks xs ys (xs.length + ys.length + 1) 0 xs.length 0 ys.length) with
  | nil =>
    rw [hml, List.nil_append] at h
    simp only [opcodesAux, List.append_nil] at h
    split at h
    next => injection h with hh _; rw [← hh] at htag; exact Tag.noConfusion htag
    next =>
      split at h
      next => injection h with hh _; rw [← hh] at htag; exact Tag.noConfusion htag
      next =>
        split at h
        next => injection h with hh _; rw [← hh] at htag; exact Tag.noConfusion htag
        next => exact absurd h (by simp)
  | cons hd rest =>
    obtain ⟨a1, b1, s1⟩ := hd
    obtain ⟨⟨g1, g2, g3, g4, g5⟩, g6⟩ :=
      hmerged (a1, b1, s1) (by rw [hml]; exact List.mem_cons_self _ _)
    dsimp only at g1 g2 g3 g4 g5 g6
    rw [hml, List.cons_append] at h
    simp only [opcodesAux] at h
    rw [if_neg g6] at h
    have ht1 : ¬ (0 < a1 ∧ 0 < b1) ∧ ¬ ((0:Nat) < a1) ∧ ¬ ((0:Nat) < b1) := by
      rcases Nat.eq_zero_or_pos a1 with ha | ha
      · rcases Nat.eq_zero_or_pos b1 with hb | hb
        · exact ⟨by omega, by omega, by omega⟩
        · exfalso
          rw [if_neg (by omega), if_neg (by omega), if_pos hb, List.cons_append] at h
          injection h with hh _
          rw [← hh] at htag
          exact Tag.noConfusion htag
      · rcases Nat.eq_zero_or_pos b1 with hb | hb
        · exfalso
          rw [if_neg (by omega), if_pos ha, List.cons_append] at h
          injection h with hh _
          rw [← hh] at htag
          exact Tag.noConfusion htag
        · exfalso
          rw [if_pos ⟨ha, hb⟩, List.cons_append] at h
          injection h with hh _
          rw [← hh] at htag
          exact Tag.noConfusion htag
    obtain ⟨hT1, hT2, hT3⟩ := ht1
    have ha1 : a1 = 0 := by omega
    have hb1 : b1 = 0 := by omega
    rw [if_neg hT1, if_neg hT2, if_neg hT3, List.nil_append, List.cons_append] at h
    injection h with hh htail
    have hrest := opcodesAux_nil _ _ _ htail
    have hrestnil : rest = [] := by
      cases rest with
      | nil => rfl
      | cons r rt =>
        have hr0 := hrest r (List.mem_append_left _ (List.mem_cons_self _ _))
        have hrsp := hmerged r
          (by rw [hml]; exact List.mem_cons_of_mem _ (List.mem_cons_self _ _))
        exact absurd hr0.1 hrsp.2
    subst hrestnil
    have hsentb := hrest (xs.length, ys.length, 0)
      (List.mem_append_right _ (List.mem_singleton.mpr rfl))
    dsimp only at hsentb
    have hla : xs.length = s1 := by omega
    have hlb : ys.length = s1 := by omega
    calc xs = xs.take s1 := by rw [← hla, List.take_length]
      _ = ys.take s1 := by rw [ha1, hb1] at g5; simpa using g5
      _ = ys := by rw [← hlb, List.take_length]

/-- Core of the non-emptiness direction: two distinct line sequences
always produce at least one opcode group. -/
theorem getGroupedOpcodes_ne_nil {xs ys : List (List Char)} (hne : xs ≠ ys) :
    getGroupedOpcodes xs ys ≠ [] := by
  intro hg
  unfold getGroupedOpcodes at hg
  dsimp only at hg
  have hdecomp := groupLoop_nil 3 _ [] hg
  simp only [List.nil_append] at hdecomp
  by_cases hcnil : getOpcodes xs ys = []
  · exact hne (getOpcodes_nil_eq hcnil)
  · rw [if_neg hcnil] at hdecomp
    rcases hdecomp with h0 | ⟨c, hc1, hc2⟩
    · have hmap0 : (getOpcodes xs ys).map Opcode.tag = [] := by
        rw [← trimHead_map_tag 3, ← trimLast_map_tag 3, h0]
        rfl
      exact hcnil (by simpa using hmap0)
    · have hmap1 : (getOpcodes xs ys).map Opcode.tag = [Tag.equal] := by
        rw [← trimHead_map_tag 3, ← trimLast_map_tag 3, hc1]
        simp [hc2]
      obtain ⟨c₁, hC1, hC2⟩ := map_tag_single hmap1
      exact hne (getOpcodes_single_equal_eq hC1 hC2)

theorem unified_diff_self (a : String) : unified_diff a a = "" := by
  unfold unified_diff unifiedDiffLines
  rw [getGroupedOpcodes_self]
  rfl

theorem unified_diff_ne {a b : String} (hne : a ≠ b) : unified_diff a b ≠ "" := by
  have hxs : pySplitlines a.toList ≠ pySplitlines b.toList :=
    fun he => hne (String.ext (pySplitlines_inj he))
  intro hd
  have hdata := congrArg String.data hd
  unfold unified_diff unifiedDiffLines at hdata
  cases hg : getGroupedOpcodes (pySplitlines a.toList) (pySplitlines b.toList) with
  | nil => exact getGroupedOpcodes_ne_nil hxs hg
  | cons g gs =>
    rw [hg] at hdata
    have h0 : ("" : String).data = [] := rfl
    rw [h0] at hdata
    dsimp only at hdata
    rw [List.flatten_cons] at hdata
    exact absurd (List.append_eq_nil.mp hdata).1 (by decide)

end DifflibLemmas

/-- C7 counterexample: the texts "a\n" and "a\nb" are distinct and their
unified diff is non-empty, but — being a pure insertion — the diff
contains no removal marker among its hunk lines (the lines after the two
file headers): the claim's "contains both a removal marker and an
addition marker for changed lines" fails. -/
theorem diff_pure_insertion_no_removal_marker :
    ("a\n" : String) ≠ "a\nb" ∧
    unified_diff "a\n" "a\nb" ≠ "" ∧
    (∀ l ∈ (unifiedDiffLines (pySplitlines ("a\n" : String).toList)
        (pySplitlines ("a\nb" : String).toList)).drop 2, ¬ l.head? = some '-') := by
  refine ⟨by decide, by decide, by decide⟩

/-- C7 (amended): the unified diff between a prompt and an identical
`improved` text is the empty string, and the diff between any two
distinct texts is non-empty; but a diff need not contain a removal
marker among its changed lines (a pure insertion yields only addition
lines, and symmetrically a pure deletion only removal lines), so the
marker clause of the original claim holds only for lines that are
actually removed or replaced. -/
theorem diff_empty_iff_identical (a b : String) :
    (a = b → unified_diff a b = "") ∧ (a ≠ b → unified_diff a b ≠ "") :=
  ⟨fun h => h ▸ unified_diff_self a, fun hne => unified_diff_ne hne⟩

/-- C7 witness: concrete instances of both directions. -/
theorem diff_empty_iff_identical_witness :
    unified_diff "x" "x" = "" ∧ unified_diff "x" "y" ≠ "" :=
  ⟨(diff_empty_iff_identical "x" "x").1 rfl,
    (diff_empty_iff_identical "x" "y").2 (by decide)⟩

end PromptCoach
